import Mathlib

/-!
# Verification of the `be-good` decoder combinator library

A shallow embedding of `src/index.ts` (the later revision of the module).
JavaScript runtime values are modelled by the inductive type `JVal`;
decoders, which in the source either return a value or throw, are modelled
as functions `JVal → Except String JVal` whose error channel carries the
thrown `TypeError` message.  Each exported combinator of the library
(`be`, `fallback`, `beObject`, `beObjectOf`, `beArrayOf`, `beDictOf`) is
translated function by function, and the testable properties of the
specification are proved or refuted against these translations.
-/

/-- A JavaScript runtime value, as far as the library can observe it:
`null`, `undefined`, booleans, numbers, strings, arrays, plain objects
(modelled as association lists of string keys, unique in any value that
a JavaScript object can denote), and function values. -/
inductive JVal where
  | vNull : JVal
  | vUndefined : JVal
  | vBool : Bool → JVal
  | vNum : Int → JVal
  | vStr : String → JVal
  | vArr : List JVal → JVal
  | vObj : List (String × JVal) → JVal
  | vFun : JVal

/-- The JavaScript `typeof` operator on a `JVal`.  Note `typeof null`,
`typeof []` and `typeof {}` are all `"object"`, while functions have
their own tag. -/
def typeofJ : JVal → String
  | .vNull => "object"
  | .vUndefined => "undefined"
  | .vBool _ => "boolean"
  | .vNum _ => "number"
  | .vStr _ => "string"
  | .vArr _ => "object"
  | .vObj _ => "object"
  | .vFun => "function"

mutual
/-- JavaScript array rendering, `Array.prototype.toString`: elements joined by commas, with `null` and
`undefined` elements rendered as the empty string. -/
def jsJoin : List JVal → String
  | [] => ""
  | [x] => jsElem x
  | x :: y :: xs => jsElem x ++ "," ++ jsJoin (y :: xs)

/-- Rendering of a single array element inside `Array.prototype.join`. -/
def jsElem : JVal → String
  | .vNull => ""
  | .vUndefined => ""
  | .vBool true => "true"
  | .vBool false => "false"
  | .vNum n => toString n
  | .vStr s => s
  | .vArr xs => jsJoin xs
  | .vObj _ => "[object Object]"
  | .vFun => "function () \x7b [code] \x7d"
end

/-- JavaScript string coercion `${value}` as used in the library's template
literals. -/
def jsToString : JVal → String
  | .vNull => "null"
  | .vUndefined => "undefined"
  | .vBool true => "true"
  | .vBool false => "false"
  | .vNum n => toString n
  | .vStr s => s
  | .vArr xs => jsJoin xs
  | .vObj _ => "[object Object]"
  | .vFun => "function () \x7b [code] \x7d"

/-- The helper `printValueInfo` from the source: the value's display form (quoted with
curly quotes when it is a string) followed by its `typeof` tag in
parentheses. -/
def printValueInfo (v : JVal) : String :=
  let q := if typeofJ v = "string" then ("“", "”") else ("", "")
  q.1 ++ jsToString v ++ q.2 ++ " (" ++ typeofJ v ++ ")"

/-- JavaScript loose inequality `value != null`, true unless the value is
`null` or `undefined`. -/
def looseNeqNull : JVal → Bool
  | .vNull => false
  | .vUndefined => false
  | _ => true

/-- The JavaScript test `Array.isArray`. -/
def isArrayJ : JVal → Bool
  | .vArr _ => true
  | _ => false

/-- The guard `isObject` from the source (later revision):
`value != null && typeof value === 'object' && !Array.isArray(value)`.
Functions and arrays are deliberately negatives. -/
def isObject (v : JVal) : Bool :=
  looseNeqNull v && (typeofJ v = "object" : Bool) && !isArrayJ v

/-- A decoder: in the source, a function that returns a value or throws a
`TypeError`; here, the error channel carries the message. -/
def Decoder := JVal → Except String JVal

/-- The combinator `be` from the source: lifts a predicate into a decoder that returns its
input unchanged when the predicate holds and otherwise throws
`assertion failed on <printValueInfo input>`. -/
def be (p : JVal → Bool) : Decoder := fun input =>
  if !p input then .error ("assertion failed on " ++ printValueInfo input)
  else .ok input

/-- The combinator `fallback` from the source: wraps a decoder in a try/catch and returns
the fallback value on any failure whatsoever. -/
def fallback (fallbackVal : JVal) (decoder : Decoder) : Decoder := fun input =>
  match decoder input with
  | .ok v => .ok v
  | .error _ => .ok fallbackVal

/-- The decoder `beObject = be(isObject)` from the source. -/
def beObject : Decoder := be isObject

/-- Property lookup `input[key]` on an object's fields: an absent property
reads as `undefined`. -/
def getField (fields : List (String × JVal)) (key : String) : JVal :=
  match fields.find? (fun p => p.1 = key) with
  | some p => p.2
  | none => .vUndefined

/-- The `Object.keys(fieldDecoders).forEach` loop of `beObjectOf`: runs each
field decoder on the corresponding input property, building the result
record in declaration order; the first thrown error aborts the whole loop. -/
def decodeFields (fds : List (String × Decoder)) (fields : List (String × JVal)) :
    Except String (List (String × JVal)) :=
  match fds with
  | [] => .ok []
  | (k, d) :: rest =>
    match d (getField fields k) with
    | .error e => .error e
    | .ok v =>
      match decodeFields rest fields with
      | .error e => .error e
      | .ok tail => .ok ((k, v) :: tail)

/-- The combinator `beObjectOf` from the source: checks the input is an object, then decodes
each declared field from the corresponding input property into a fresh
record. -/
def beObjectOf (fieldDecoders : List (String × Decoder)) : Decoder := fun input =>
  if !isObject input then .error "Not an object"
  else
    match input with
    | .vObj fields =>
      match decodeFields fieldDecoders fields with
      | .error e => .error e
      | .ok r => .ok (.vObj r)
    | _ => .error "Not an object"

/-- The `invalidate` option: drop a failing element (`single`) or abort the
whole collection (`all`). -/
inductive Invalidate where
  | single : Invalidate
  | all : Invalidate
deriving DecidableEq, Repr

/-- The options record `BeCollectionOptions` from the source. -/
structure BeCollectionOptions where
  invalidate : Invalidate
  minSize : Nat
deriving DecidableEq, Repr

/-- The defaults applied by the source's destructuring
`{ invalidate = 'single', minSize = 0 }`. -/
def defaultOptions : BeCollectionOptions := ⟨.single, 0⟩

/-- The element loop of `arrayDecoder`: pushes each successfully decoded
element; on a failure either skips the element (`single`) or throws
`invalid element` (`all`). -/
def decodeElems (elDecoder : Decoder) (invalidate : Invalidate) :
    List JVal → Except String (List JVal)
  | [] => .ok []
  | el :: rest =>
    match elDecoder el with
    | .ok v =>
      match decodeElems elDecoder invalidate rest with
      | .error e => .error e
      | .ok tail => .ok (v :: tail)
    | .error _ =>
      match invalidate with
      | .single => decodeElems elDecoder invalidate rest
      | .all => .error "invalid element"

/-- The combinator `beArrayOf` from the source: rejects non-arrays, decodes the elements
under the `invalidate` policy, then enforces `minSize` on the surviving
count. -/
def beArrayOf (elDecoder : Decoder) (opts : BeCollectionOptions) : Decoder := fun input =>
  match input with
  | .vArr els =>
    match decodeElems elDecoder opts.invalidate els with
    | .error e => .error e
    | .ok result =>
      if result.length < opts.minSize then
        .error ("Array length less than " ++ toString opts.minSize)
      else .ok (.vArr result)
  | _ => .error "Not an array"

/-- The `Object.keys(input).forEach` loop of `dictDecoder`: decodes each
property's value, keeping successes keyed as in the input; on a failure
either skips the property (`single`) or throws `invalid element` (`all`). -/
def decodeDictElems (elDecoder : Decoder) (invalidate : Invalidate) :
    List (String × JVal) → Except String (List (String × JVal))
  | [] => .ok []
  | (k, el) :: rest =>
    match elDecoder el with
    | .ok v =>
      match decodeDictElems elDecoder invalidate rest with
      | .error e => .error e
      | .ok tail => .ok ((k, v) :: tail)
    | .error _ =>
      match invalidate with
      | .single => decodeDictElems elDecoder invalidate rest
      | .all => .error "invalid element"

/-- The combinator `beDictOf` from the source: rejects non-objects, decodes every property
value under the `invalidate` policy, then enforces `minSize` on the count of
surviving properties. -/
def beDictOf (elDecoder : Decoder) (opts : BeCollectionOptions) : Decoder := fun input =>
  if !isObject input then .error "Not an object"
  else
    match input with
    | .vObj fields =>
      match decodeDictElems elDecoder opts.invalidate fields with
      | .error e => .error e
      | .ok result =>
        if result.length < opts.minSize then
          .error ("Dic elements count less than " ++ toString opts.minSize)
        else .ok (.vObj result)
    | _ => .error "Not an object"

/-- The lodash predicate `isString`, used by the repository's tests as a
sample predicate guard. -/
def isString : JVal → Bool
  | .vStr _ => true
  | _ => false

/-- The lodash predicate `isNumber`, used by the repository's tests as a
sample predicate guard. -/
def isNumber : JVal → Bool
  | .vNum _ => true
  | _ => false

/-- A string `s` contains `sub`: some prefix and suffix surround it. -/
def strContains (s sub : String) : Prop := ∃ pre post : String, s = pre ++ sub ++ post

/-- The fields of an object value (an object's own enumerable properties). -/
def objFields : JVal → List (String × JVal)
  | .vObj fs => fs
  | _ => []

/-- One step of `beObjectOf`'s output: the output entry `kv` carries the
declared key of `kd` and the value `kd`'s decoder produced from the
corresponding input property. -/
def FieldDecoded (fields : List (String × JVal)) (kd : String × Decoder)
    (kv : String × JVal) : Prop :=
  kd.1 = kv.1 ∧ kd.2 (getField fields kd.1) = Except.ok kv.2

/-- Idempotence of a decoder: a successful output re-decodes to itself. -/
def IdemDecoder (d : Decoder) : Prop :=
  ∀ x y, d x = Except.ok y → d y = Except.ok y

/-- The decoders constructible from the library's combinators `be`,
`beObjectOf`, `beArrayOf` and `beDictOf`.  `beObject` is included since it
is `be isObject`.  Field-decoder mappings come from JavaScript object
literals, whose keys are necessarily distinct, hence the `Nodup`
side condition on `objectOf`. -/
inductive FromCombinators : Decoder → Prop where
  | base (p : JVal → Bool) : FromCombinators (be p)
  | objectOf (fds : List (String × Decoder)) :
      (fds.map Prod.fst).Nodup →
      (∀ kd ∈ fds, FromCombinators kd.2) →
      FromCombinators (beObjectOf fds)
  | arrayOf (d : Decoder) (opts : BeCollectionOptions) :
      FromCombinators d → FromCombinators (beArrayOf d opts)
  | dictOf (d : Decoder) (opts : BeCollectionOptions) :
      FromCombinators d → FromCombinators (beDictOf d opts)

/-! ## Helper lemmas -/

theorem strContains_intro {s sub : String} (pre post : String)
    (h : s.data = pre.data ++ sub.data ++ post.data) : strContains s sub :=
  ⟨pre, post, String.ext (by simp [String.data_append, h])⟩

theorem assertionMsg_contains_render (x : JVal) :
    strContains ("assertion failed on " ++ printValueInfo x) (jsToString x) := by
  by_cases h : typeofJ x = "string"
  · exact strContains_intro ("assertion failed on " ++ "“")
      ("”" ++ " (" ++ typeofJ x ++ ")")
      (by simp [printValueInfo, h, String.data_append])
  · exact strContains_intro "assertion failed on " (" (" ++ typeofJ x ++ ")")
      (by simp [printValueInfo, h, String.data_append])

theorem assertionMsg_contains_typeof (x : JVal) :
    strContains ("assertion failed on " ++ printValueInfo x) (typeofJ x) := by
  by_cases h : typeofJ x = "string"
  · exact strContains_intro ("assertion failed on " ++ "“" ++ jsToString x ++ "”" ++ " (") ")"
      (by simp [printValueInfo, h, String.data_append])
  · exact strContains_intro ("assertion failed on " ++ jsToString x ++ " (") ")"
      (by simp [printValueInfo, h, String.data_append])

/-! ## C1: the base decoder `be` -/

/-- C1.  When the predicate accepts, `be predicate` is the identity; when it
rejects, `be predicate` fails with a message containing both the rendering
of the input and its runtime `typeof` tag. -/
theorem be_spec (p : JVal → Bool) (x : JVal) :
    (p x = true → be p x = Except.ok x) ∧
    (p x = false → ∃ msg, be p x = Except.error msg ∧
      strContains msg (jsToString x) ∧ strContains msg (typeofJ x)) := by
  constructor
  · intro h
    simp [be, h]
  · intro h
    exact ⟨"assertion failed on " ++ printValueInfo x, by simp [be, h],
      assertionMsg_contains_render x, assertionMsg_contains_typeof x⟩

/-- Witness for C1 at the repository's own test inputs. -/
theorem be_spec_witness :
    (be isString (JVal.vStr "twenty") = Except.ok (JVal.vStr "twenty")) ∧
    (∃ msg, be isString (JVal.vNum 20) = Except.error msg ∧
      strContains msg (jsToString (JVal.vNum 20)) ∧
      strContains msg (typeofJ (JVal.vNum 20))) :=
  ⟨(be_spec isString (JVal.vStr "twenty")).1 rfl,
   (be_spec isString (JVal.vNum 20)).2 rfl⟩

/-! ## C2: the `fallback` combinator -/

/-- C2.  `fallback fb d` agrees with `d` on success, returns `fb` on any
failure of `d` whatsoever, and itself never fails. -/
theorem fallback_spec (fb : JVal) (d : Decoder) (x : JVal) :
    (∀ v, d x = Except.ok v → fallback fb d x = Except.ok v) ∧
    (∀ e, d x = Except.error e → fallback fb d x = Except.ok fb) ∧
    (∃ v, fallback fb d x = Except.ok v) := by
  unfold fallback
  cases h : d x <;> simp [h]

/-- Witness for C2 at the repository's own test inputs. -/
theorem fallback_spec_witness :
    (fallback (JVal.vStr "fell back") (be isNumber) (JVal.vNum 3) =
      Except.ok (JVal.vNum 3)) ∧
    (fallback (JVal.vStr "fell back") (be isNumber) (JVal.vStr "3") =
      Except.ok (JVal.vStr "fell back")) :=
  ⟨(fallback_spec (JVal.vStr "fell back") (be isNumber) (JVal.vNum 3)).1
      (JVal.vNum 3) rfl,
   (fallback_spec (JVal.vStr "fell back") (be isNumber) (JVal.vStr "3")).2.1
      ("assertion failed on " ++ printValueInfo (JVal.vStr "3")) rfl⟩

/-! ## C7: arrays are never objects -/

/-- C7.  Every array input fails the object shape check: `beObject`,
`beObjectOf` and `beDictOf` all reject arrays, so array-shaped input is
never decoded as a field-bearing object. -/
theorem array_never_object (xs : List JVal) (fds : List (String × Decoder))
    (d : Decoder) (opts : BeCollectionOptions) :
    isObject (JVal.vArr xs) = false ∧
    (∃ e, beObject (JVal.vArr xs) = Except.error e) ∧
    (∃ e, beObjectOf fds (JVal.vArr xs) = Except.error e) ∧
    (∃ e, beDictOf d opts (JVal.vArr xs) = Except.error e) :=
  ⟨rfl, ⟨_, rfl⟩, ⟨_, rfl⟩, ⟨_, rfl⟩⟩

/-! ## C10: functions are never objects -/

/-- C10.  A function value fails the object shape check: `beObject`,
`beObjectOf` and `beDictOf` all reject functions, even though JavaScript's
permissive object notion would admit them. -/
theorem function_never_object (fds : List (String × Decoder)) (d : Decoder)
    (opts : BeCollectionOptions) :
    isObject JVal.vFun = false ∧
    (∃ e, beObject JVal.vFun = Except.error e) ∧
    beObjectOf fds JVal.vFun = Except.error "Not an object" ∧
    beDictOf d opts JVal.vFun = Except.error "Not an object" :=
  ⟨rfl, ⟨_, rfl⟩, rfl, rfl⟩

/-! ## Collection decoders under the default `single` policy -/

theorem decodeElems_single_eq (d : Decoder) (xs : List JVal) :
    decodeElems d .single xs =
      Except.ok (xs.filterMap fun el => (d el).toOption) := by
  induction xs with
  | nil => rfl
  | cons x xs ih =>
    cases h : d x <;> simp [decodeElems, h, Except.toOption, ih]

theorem decodeDictElems_single_eq (d : Decoder) (fs : List (String × JVal)) :
    decodeDictElems d .single fs =
      Except.ok (fs.filterMap fun kv => ((d kv.2).toOption).map fun v => (kv.1, v)) := by
  induction fs with
  | nil => rfl
  | cons kv rest ih =>
    obtain ⟨k, el⟩ := kv
    cases h : d el <;> simp [decodeDictElems, h, Except.toOption, ih]

/-- C4.  With default options, `beArrayOf` returns exactly the ordered
decoded values of the elements the element decoder accepts, and `beDictOf`
returns exactly the properties whose values it accepts. -/
theorem default_options_keep_successes (d : Decoder) (xs : List JVal)
    (fs : List (String × JVal)) :
    beArrayOf d defaultOptions (JVal.vArr xs) =
      Except.ok (JVal.vArr (xs.filterMap fun el => (d el).toOption)) ∧
    beDictOf d defaultOptions (JVal.vObj fs) =
      Except.ok (JVal.vObj
        (fs.filterMap fun kv => ((d kv.2).toOption).map fun v => (kv.1, v))) := by
  constructor
  · simp [beArrayOf, defaultOptions, decodeElems_single_eq]
  · simp [beDictOf, defaultOptions, decodeDictElems_single_eq, isObject,
      looseNeqNull, typeofJ, isArrayJ]

/-! ## C5: `invalidate: all` aborts on any element failure -/

theorem decodeElems_all_error (d : Decoder) (xs : List JVal)
    (h : ∃ el ∈ xs, ∃ e, d el = Except.error e) :
    decodeElems d .all xs = Except.error "invalid element" := by
  induction xs with
  | nil => simp at h
  | cons x xs ih =>
    obtain ⟨el, hel, e, he⟩ := h
    cases hx : d x with
    | error e' => simp [decodeElems, hx]
    | ok v =>
      rcases List.mem_cons.mp hel with rfl | hmem
      · exact absurd (hx.symm.trans he) (by simp)
      · simp [decodeElems, hx, ih ⟨el, hmem, e, he⟩]

theorem decodeDictElems_all_error (d : Decoder) (fs : List (String × JVal))
    (h : ∃ kv ∈ fs, ∃ e, d kv.2 = Except.error e) :
    decodeDictElems d .all fs = Except.error "invalid element" := by
  induction fs with
  | nil => simp at h
  | cons kv rest ih =>
    obtain ⟨k, el⟩ := kv
    obtain ⟨kv', hkv', e, he⟩ := h
    cases hx : d el with
    | error e' => simp [decodeDictElems, hx]
    | ok v =>
      rcases List.mem_cons.mp hkv' with rfl | hmem
      · exact absurd (hx.symm.trans he) (by simp)
      · simp [decodeDictElems, hx, ih ⟨kv', hmem, e, he⟩]

/-- C5.  Under `invalidate: all`, one failing element fails the whole
collection with the element-failure error, for every `minSize` — the abort
happens before the size check, so the error is `invalid element`, never the
size-violation message. -/
theorem invalidate_all_aborts (d : Decoder) (n : Nat) (xs : List JVal)
    (fs : List (String × JVal)) :
    ((∃ el ∈ xs, ∃ e, d el = Except.error e) →
      beArrayOf d ⟨.all, n⟩ (JVal.vArr xs) = Except.error "invalid element") ∧
    ((∃ kv ∈ fs, ∃ e, d kv.2 = Except.error e) →
      beDictOf d ⟨.all, n⟩ (JVal.vObj fs) = Except.error "invalid element") := by
  constructor
  · intro h
    simp [beArrayOf, decodeElems_all_error d xs h]
  · intro h
    simp [beDictOf, isObject, looseNeqNull, typeofJ, isArrayJ,
      decodeDictElems_all_error d fs h]

/-- Witness for C5 at the repository's own test inputs: the failure hits even
though the two surviving numbers would have met `minSize: 1`. -/
theorem invalidate_all_aborts_witness :
    beArrayOf (be isNumber) ⟨.all, 1⟩
      (JVal.vArr [JVal.vStr "1", JVal.vNum 2, JVal.vNum 3]) =
      Except.error "invalid element" ∧
    beDictOf (be isNumber) ⟨.all, 1⟩
      (JVal.vObj [("a", JVal.vStr "a"), ("two", JVal.vNum 2), ("three", JVal.vNum 3)]) =
      Except.error "invalid element" :=
  ⟨(invalidate_all_aborts (be isNumber) 1 [JVal.vStr "1", JVal.vNum 2, JVal.vNum 3] []).1
      ⟨JVal.vStr "1", List.Mem.head _, _, rfl⟩,
   (invalidate_all_aborts (be isNumber) 1 []
      [("a", JVal.vStr "a"), ("two", JVal.vNum 2), ("three", JVal.vNum 3)]).2
      ⟨("a", JVal.vStr "a"), List.Mem.head _, _, rfl⟩⟩

/-! ## C6: `minSize` is checked on the survivor count -/

/-- C6.  Under the default `single` policy, `beArrayOf` with `minSize: n`
fails exactly when the survivor count is below `n`, and with no minimum
configured, zero survivors is a success returning the empty array. -/
theorem minSize_on_survivors (d : Decoder) (n : Nat) (xs : List JVal) :
    ((∃ e, beArrayOf d ⟨.single, n⟩ (JVal.vArr xs) = Except.error e) ↔
      (xs.filterMap fun el => (d el).toOption).length < n) ∧
    ((xs.filterMap fun el => (d el).toOption) = [] →
      beArrayOf d defaultOptions (JVal.vArr xs) = Except.ok (JVal.vArr [])) := by
  constructor
  · by_cases h : (xs.filterMap fun el => (d el).toOption).length < n <;>
      simp [beArrayOf, decodeElems_single_eq, h]
  · intro h
    simp [beArrayOf, defaultOptions, decodeElems_single_eq, h]

/-- Witness for C6 at the repository's own test inputs: two numeric survivors
out of four elements fail `minSize: 3`, satisfy `minSize: 2`, and an
all-invalid input with no minimum succeeds with an empty array. -/
theorem minSize_on_survivors_witness :
    (∃ e, beArrayOf (be isNumber) ⟨.single, 3⟩
      (JVal.vArr [JVal.vStr "1", JVal.vStr "2", JVal.vNum 3, JVal.vNum 4]) =
        Except.error e) ∧
    beArrayOf (be isNumber) ⟨.single, 2⟩
      (JVal.vArr [JVal.vStr "1", JVal.vStr "2", JVal.vNum 3, JVal.vNum 4]) =
        Except.ok (JVal.vArr [JVal.vNum 3, JVal.vNum 4]) ∧
    beArrayOf (be isNumber) defaultOptions (JVal.vArr [JVal.vStr "1"]) =
      Except.ok (JVal.vArr []) :=
  ⟨(minSize_on_survivors (be isNumber) 3
      [JVal.vStr "1", JVal.vStr "2", JVal.vNum 3, JVal.vNum 4]).1.mpr (by decide),
   rfl,
   (minSize_on_survivors (be isNumber) 0 [JVal.vStr "1"]).2 rfl⟩

/-! ## C8: shape-mismatch error messages -/

/-- Counterexample to C8: `beArrayOf` on the non-array `77` fails with the
fixed message `Not an array`, which does not contain the rejected value's
display form `77` (nor, a fortiori, its type tag plus display form). -/
theorem shape_error_lacks_value_info :
    beArrayOf (be isString) defaultOptions (JVal.vNum 77) =
      Except.error "Not an array" ∧
    ¬ strContains "Not an array" (jsToString (JVal.vNum 77)) := by
  constructor
  · rfl
  · rintro ⟨pre, post, h⟩
    have hdata : ("Not an array").data =
        pre.data ++ (jsToString (JVal.vNum 77)).data ++ post.data := by
      rw [h]
      simp [String.data_append]
    have h7 : '7' ∈ ("Not an array").data := by
      rw [hdata]
      refine List.mem_append.mpr (Or.inl (List.mem_append.mpr (Or.inr ?_)))
      decide
    revert h7
    decide

/-- C8 amended: a structural shape failure — `beArrayOf` on a non-array,
`beObjectOf` or `beDictOf` on a non-object — produces the fixed descriptive
message `Not an array` resp. `Not an object`, which names the expected shape
but does not include the rejected value's display form or type tag; only
predicate failures through `be` carry those. -/
theorem shape_error_fixed_message (d d' : Decoder) (fds : List (String × Decoder))
    (opts opts' : BeCollectionOptions) (x y : JVal) :
    (isArrayJ x = false → beArrayOf d opts x = Except.error "Not an array") ∧
    (isObject y = false → beObjectOf fds y = Except.error "Not an object") ∧
    (isObject y = false → beDictOf d' opts' y = Except.error "Not an object") := by
  refine ⟨?_, ?_, ?_⟩
  · intro h
    cases x <;> simp_all [beArrayOf, isArrayJ]
  · intro h
    simp [beObjectOf, h]
  · intro h
    simp [beDictOf, h]

/-- Witness for the amended C8 at the repository's own test inputs. -/
theorem shape_error_fixed_message_witness :
    beArrayOf (be isString) defaultOptions (JVal.vStr "seventy seventeen") =
      Except.error "Not an array" ∧
    beObjectOf [("name", be isString)] (JVal.vNum 77) =
      Except.error "Not an object" ∧
    beDictOf (be isString) defaultOptions (JVal.vBool true) =
      Except.error "Not an object" :=
  ⟨(shape_error_fixed_message (be isString) (be isString) [("name", be isString)]
      defaultOptions defaultOptions (JVal.vStr "seventy seventeen") (JVal.vNum 77)).1 rfl,
   (shape_error_fixed_message (be isString) (be isString) [("name", be isString)]
      defaultOptions defaultOptions (JVal.vStr "seventy seventeen") (JVal.vNum 77)).2.1 rfl,
   (shape_error_fixed_message (be isString) (be isString) [("name", be isString)]
      defaultOptions defaultOptions (JVal.vStr "seventy seventeen") (JVal.vBool true)).2.2 rfl⟩

/-! ## C3: the object decoder `beObjectOf` -/

theorem forall₂_exists_of_mem {α β : Type _} {R : α → β → Prop} {l₁ : List α}
    {l₂ : List β} (h : List.Forall₂ R l₁ l₂) {a : α} (ha : a ∈ l₁) :
    ∃ b, b ∈ l₂ ∧ R a b := by
  induction h with
  | nil => cases ha
  | cons h₁ h₂ ih =>
    rcases List.mem_cons.mp ha with rfl | ha'
    · exact ⟨_, List.Mem.head _, h₁⟩
    · obtain ⟨b, hb, hr⟩ := ih ha'
      exact ⟨b, List.Mem.tail _ hb, hr⟩

theorem exists_forall₂_of_forall_exists {α β : Type _} {R : α → β → Prop}
    (l : List α) (h : ∀ a ∈ l, ∃ b, R a b) : ∃ l', List.Forall₂ R l l' := by
  induction l with
  | nil => exact ⟨[], List.Forall₂.nil⟩
  | cons a l ih =>
    obtain ⟨b, hb⟩ := h a (List.Mem.head _)
    obtain ⟨l', hl'⟩ := ih fun x hx => h x (List.Mem.tail _ hx)
    exact ⟨b :: l', List.Forall₂.cons hb hl'⟩

theorem decodeFields_ok_iff (fds : List (String × Decoder))
    (fields : List (String × JVal)) (r : List (String × JVal)) :
    decodeFields fds fields = Except.ok r ↔
      List.Forall₂ (FieldDecoded fields) fds r := by
  induction fds generalizing r with
  | nil =>
    constructor
    · intro h
      obtain rfl : ([] : List (String × JVal)) = r := by simpa [decodeFields] using h
      exact List.Forall₂.nil
    · intro h
      cases h
      rfl
  | cons kd rest ih =>
    obtain ⟨k, d⟩ := kd
    constructor
    · intro h
      cases hd : d (getField fields k) with
      | error e => simp [decodeFields, hd] at h
      | ok v =>
        cases hrest : decodeFields rest fields with
        | error e => simp [decodeFields, hd, hrest] at h
        | ok tail =>
          simp only [decodeFields, hd, hrest] at h
          obtain rfl : (k, v) :: tail = r := by simpa using h
          exact List.Forall₂.cons ⟨rfl, hd⟩ ((ih tail).mp hrest)
    · intro h
      cases h with
      | cons hfd htail =>
        rename_i b u
        obtain ⟨b₁, b₂⟩ := b
        obtain ⟨hk, hdec⟩ := hfd
        cases hk
        have hdec' : d (getField fields k) = Except.ok b₂ := hdec
        simp only [decodeFields, hdec', (ih u).mpr htail]

theorem isObject_iff (x : JVal) : isObject x = true ↔ ∃ fs, x = JVal.vObj fs := by
  cases x <;> simp [isObject, looseNeqNull, typeofJ, isArrayJ]

theorem beObjectOf_obj_eq (fds : List (String × Decoder)) (fs : List (String × JVal)) :
    beObjectOf fds (JVal.vObj fs) =
      match decodeFields fds fs with
      | .error e => .error e
      | .ok r => .ok (JVal.vObj r) := by
  simp [beObjectOf, isObject, looseNeqNull, typeofJ, isArrayJ]

theorem decodeFields_congr (fds : List (String × Decoder))
    (f₁ f₂ : List (String × JVal))
    (h : ∀ kd ∈ fds, getField f₁ kd.1 = getField f₂ kd.1) :
    decodeFields fds f₁ = decodeFields fds f₂ := by
  induction fds with
  | nil => rfl
  | cons kd rest ih =>
    obtain ⟨k, d⟩ := kd
    simp only [decodeFields]
    rw [h (k, d) (List.Mem.head _), ih fun kd' h' => h kd' (List.Mem.tail _ h')]

/-- C3.  On an object input: a failing declared field decoder fails the
whole decode (no partial record); if every declared field decodes, the
result is a record of exactly the declared fields with their decoded
values; the result depends only on the declared fields, so extra input
properties are ignored; and wrapping one failing field's decoder in
`fallback fb` yields a complete record with `fb` substituted for that
field only. -/
theorem beObjectOf_spec (fds : List (String × Decoder)) (x : JVal)
    (hx : isObject x = true) :
    ((∃ kd ∈ fds, ∃ e, kd.2 (getField (objFields x) kd.1) = Except.error e) →
      ∃ e, beObjectOf fds x = Except.error e) ∧
    ((∀ kd ∈ fds, ∃ v, kd.2 (getField (objFields x) kd.1) = Except.ok v) →
      ∃ r, beObjectOf fds x = Except.ok (JVal.vObj r) ∧
        List.Forall₂ (FieldDecoded (objFields x)) fds r) ∧
    (∀ y, isObject y = true →
      (∀ kd ∈ fds, getField (objFields y) kd.1 = getField (objFields x) kd.1) →
      beObjectOf fds y = beObjectOf fds x) ∧
    (∀ fb k d fds₁ fds₂, fds = fds₁ ++ (k, fallback fb d) :: fds₂ →
      (∃ e, d (getField (objFields x) k) = Except.error e) →
      (∀ kd ∈ fds₁ ++ fds₂, ∃ v, kd.2 (getField (objFields x) kd.1) = Except.ok v) →
      ∃ r₁ r₂, beObjectOf fds x = Except.ok (JVal.vObj (r₁ ++ (k, fb) :: r₂)) ∧
        List.Forall₂ (FieldDecoded (objFields x)) fds₁ r₁ ∧
        List.Forall₂ (FieldDecoded (objFields x)) fds₂ r₂) := by
  obtain ⟨fs, rfl⟩ := (isObject_iff x).mp hx
  have hfs : objFields (JVal.vObj fs) = fs := rfl
  rw [hfs]
  refine ⟨?_, ?_, ?_, ?_⟩
  · intro ⟨kd, hmem, e, he⟩
    cases hres : decodeFields fds fs with
    | error e' => exact ⟨e', by rw [beObjectOf_obj_eq, hres]⟩
    | ok r =>
      have hF := (decodeFields_ok_iff fds fs r).mp hres
      obtain ⟨b, -, -, hdec⟩ := forall₂_exists_of_mem hF hmem
      exact absurd (hdec.symm.trans he) (by simp)
  · intro h
    obtain ⟨r, hr⟩ := @exists_forall₂_of_forall_exists _ _ (FieldDecoded fs) fds
      fun kd hkd => by
        obtain ⟨v, hv⟩ := h kd hkd
        exact ⟨(kd.1, v), rfl, hv⟩
    exact ⟨r, by rw [beObjectOf_obj_eq, (decodeFields_ok_iff fds fs r).mpr hr], hr⟩
  · intro y hy hsame
    obtain ⟨fs', rfl⟩ := (isObject_iff y).mp hy
    rw [beObjectOf_obj_eq, beObjectOf_obj_eq,
      decodeFields_congr fds fs' fs (fun kd hkd => hsame kd hkd)]
  · intro fb k d fds₁ fds₂ hsplit ⟨e, he⟩ hok
    obtain ⟨r₁, hr₁⟩ := @exists_forall₂_of_forall_exists _ _ (FieldDecoded fs) fds₁
      fun kd hkd => by
        obtain ⟨v, hv⟩ := hok kd (List.mem_append.mpr (Or.inl hkd))
        exact ⟨(kd.1, v), rfl, hv⟩
    obtain ⟨r₂, hr₂⟩ := @exists_forall₂_of_forall_exists _ _ (FieldDecoded fs) fds₂
      fun kd hkd => by
        obtain ⟨v, hv⟩ := hok kd (List.mem_append.mpr (Or.inr hkd))
        exact ⟨(kd.1, v), rfl, hv⟩
    have hmid : FieldDecoded fs (k, fallback fb d) (k, fb) :=
      ⟨rfl, by simp [fallback, he]⟩
    have hall : List.Forall₂ (FieldDecoded fs) fds (r₁ ++ (k, fb) :: r₂) := by
      rw [hsplit]
      exact List.rel_append hr₁ (List.Forall₂.cons hmid hr₂)
    exact ⟨r₁, r₂,
      by rw [beObjectOf_obj_eq, (decodeFields_ok_iff fds fs _).mpr hall], hr₁, hr₂⟩

/-- Witness for C3 at the repository's own test inputs: a string-typed `age`
fails the numeric person decoder outright, while wrapping the `age` decoder
in `fallback 0` turns Bob's numeric age into the fallback `0` with the
record still complete. -/
theorem beObjectOf_spec_witness :
    (∃ e, beObjectOf [("name", be isString), ("age", be isNumber)]
      (JVal.vObj [("name", JVal.vStr "Constantine"), ("age", JVal.vStr "of Empires")]) =
        Except.error e) ∧
    (∃ r₁ r₂, beObjectOf [("name", be isString), ("age", fallback (JVal.vNum 0) (be isString))]
      (JVal.vObj [("name", JVal.vStr "Bob"), ("age", JVal.vNum 37)]) =
        Except.ok (JVal.vObj (r₁ ++ ("age", JVal.vNum 0) :: r₂)) ∧
      List.Forall₂
        (FieldDecoded (objFields (JVal.vObj [("name", JVal.vStr "Bob"), ("age", JVal.vNum 37)])))
        [("name", be isString)] r₁ ∧
      List.Forall₂
        (FieldDecoded (objFields (JVal.vObj [("name", JVal.vStr "Bob"), ("age", JVal.vNum 37)])))
        ([] : List (String × Decoder)) r₂) :=
  ⟨(beObjectOf_spec [("name", be isString), ("age", be isNumber)]
      (JVal.vObj [("name", JVal.vStr "Constantine"), ("age", JVal.vStr "of Empires")]) rfl).1
      ⟨("age", be isNumber), List.Mem.tail _ (List.Mem.head _), _, rfl⟩,
   (beObjectOf_spec [("name", be isString), ("age", fallback (JVal.vNum 0) (be isString))]
      (JVal.vObj [("name", JVal.vStr "Bob"), ("age", JVal.vNum 37)]) rfl).2.2.2
      (JVal.vNum 0) "age" (be isString) [("name", be isString)] [] rfl
      ⟨_, rfl⟩
      (fun kd hkd => by
        cases hkd with
        | head => exact ⟨JVal.vStr "Bob", rfl⟩
        | tail _ h' => cases h')⟩

/-! ## C9: idempotence of combinator-built decoders -/

theorem be_ok_iff (p : JVal → Bool) (x y : JVal) :
    be p x = Except.ok y ↔ p x = true ∧ y = x := by
  cases h : p x <;> simp [be, h, eq_comm]

theorem decodeElems_ok_forall (d : Decoder) (inv : Invalidate)
    (xs res : List JVal) (h : decodeElems d inv xs = Except.ok res) :
    ∀ v ∈ res, ∃ el, d el = Except.ok v := by
  induction xs generalizing res with
  | nil =>
    obtain rfl : ([] : List JVal) = res := by simpa [decodeElems] using h
    intro v hv
    cases hv
  | cons x xs ih =>
    cases hd : d x with
    | ok v =>
      cases hrest : decodeElems d inv xs with
      | error e => simp [decodeElems, hd, hrest] at h
      | ok tail =>
        simp only [decodeElems, hd, hrest] at h
        obtain rfl : v :: tail = res := by simpa using h
        intro w hw
        rcases List.mem_cons.mp hw with rfl | hmem
        · exact ⟨x, hd⟩
        · exact ih tail hrest w hmem
    | error e =>
      cases inv with
      | single =>
        simp only [decodeElems, hd] at h
        exact ih res h
      | all => simp [decodeElems, hd] at h

theorem decodeElems_ok_of_forall (d : Decoder) (inv : Invalidate)
    (res : List JVal) (h : ∀ v ∈ res, d v = Except.ok v) :
    decodeElems d inv res = Except.ok res := by
  induction res with
  | nil => rfl
  | cons v rest ih =>
    simp only [decodeElems, h v (List.Mem.head _),
      ih fun w hw => h w (List.Mem.tail _ hw)]

theorem decodeDictElems_ok_forall (d : Decoder) (inv : Invalidate)
    (fs res : List (String × JVal))
    (h : decodeDictElems d inv fs = Except.ok res) :
    ∀ kv ∈ res, ∃ el, d el = Except.ok kv.2 := by
  induction fs generalizing res with
  | nil =>
    obtain rfl : ([] : List (String × JVal)) = res := by
      simpa [decodeDictElems] using h
    intro kv hkv
    cases hkv
  | cons p fs ih =>
    obtain ⟨k, el⟩ := p
    cases hd : d el with
    | ok v =>
      cases hrest : decodeDictElems d inv fs with
      | error e => simp [decodeDictElems, hd, hrest] at h
      | ok tail =>
        simp only [decodeDictElems, hd, hrest] at h
        obtain rfl : (k, v) :: tail = res := by simpa using h
        intro kv hkv
        rcases List.mem_cons.mp hkv with rfl | hmem
        · exact ⟨el, hd⟩
        · exact ih tail hrest kv hmem
    | error e =>
      cases inv with
      | single =>
        simp only [decodeDictElems, hd] at h
        exact ih res h
      | all => simp [decodeDictElems, hd] at h

theorem decodeDictElems_ok_of_forall (d : Decoder) (inv : Invalidate)
    (res : List (String × JVal)) (h : ∀ kv ∈ res, d kv.2 = Except.ok kv.2) :
    decodeDictElems d inv res = Except.ok res := by
  induction res with
  | nil => rfl
  | cons kv rest ih =>
    obtain ⟨k, v⟩ := kv
    have hv : d v = Except.ok v := h (k, v) (List.Mem.head _)
    simp only [decodeDictElems, hv, ih fun w hw => h w (List.Mem.tail _ hw)]

theorem beArrayOf_ok_inv (d : Decoder) (opts : BeCollectionOptions) (x y : JVal)
    (h : beArrayOf d opts x = Except.ok y) :
    ∃ xs res, x = JVal.vArr xs ∧
      decodeElems d opts.invalidate xs = Except.ok res ∧
      ¬ res.length < opts.minSize ∧ y = JVal.vArr res := by
  cases x with
  | vArr xs =>
    cases hres : decodeElems d opts.invalidate xs with
    | error e => simp [beArrayOf, hres] at h
    | ok res =>
      by_cases hlen : res.length < opts.minSize
      · simp [beArrayOf, hres, hlen] at h
      · refine ⟨xs, res, rfl, hres, hlen, ?_⟩
        simpa [beArrayOf, hres, hlen] using h.symm
  | vNull => simp [beArrayOf] at h
  | vUndefined => simp [beArrayOf] at h
  | vBool b => simp [beArrayOf] at h
  | vNum n => simp [beArrayOf] at h
  | vStr s => simp [beArrayOf] at h
  | vObj fs => simp [beArrayOf] at h
  | vFun => simp [beArrayOf] at h

theorem beDictOf_ok_inv (d : Decoder) (opts : BeCollectionOptions) (x y : JVal)
    (h : beDictOf d opts x = Except.ok y) :
    ∃ fs res, x = JVal.vObj fs ∧
      decodeDictElems d opts.invalidate fs = Except.ok res ∧
      ¬ res.length < opts.minSize ∧ y = JVal.vObj res := by
  cases x with
  | vObj fs =>
    cases hres : decodeDictElems d opts.invalidate fs with
    | error e =>
      simp [beDictOf, isObject, looseNeqNull, typeofJ, isArrayJ, hres] at h
    | ok res =>
      by_cases hlen : res.length < opts.minSize
      · simp [beDictOf, isObject, looseNeqNull, typeofJ, isArrayJ, hres, hlen] at h
      · refine ⟨fs, res, rfl, hres, hlen, ?_⟩
        simpa [beDictOf, isObject, looseNeqNull, typeofJ, isArrayJ, hres, hlen]
          using h.symm
  | vNull => simp [beDictOf, isObject, looseNeqNull, typeofJ, isArrayJ] at h
  | vUndefined => simp [beDictOf, isObject, looseNeqNull, typeofJ, isArrayJ] at h
  | vBool b => simp [beDictOf, isObject, looseNeqNull, typeofJ, isArrayJ] at h
  | vNum n => simp [beDictOf, isObject, looseNeqNull, typeofJ, isArrayJ] at h
  | vStr s => simp [beDictOf, isObject, looseNeqNull, typeofJ, isArrayJ] at h
  | vArr xs => simp [beDictOf, isObject, looseNeqNull, typeofJ, isArrayJ] at h
  | vFun => simp [beDictOf, isObject, looseNeqNull, typeofJ, isArrayJ] at h

theorem beObjectOf_ok_inv (fds : List (String × Decoder)) (x y : JVal)
    (h : beObjectOf fds x = Except.ok y) :
    ∃ fs r, x = JVal.vObj fs ∧ decodeFields fds fs = Except.ok r ∧
      y = JVal.vObj r := by
  cases x with
  | vObj fs =>
    rw [beObjectOf_obj_eq] at h
    cases hres : decodeFields fds fs with
    | error e => rw [hres] at h; cases h
    | ok r =>
      rw [hres] at h
      exact ⟨fs, r, rfl, hres, by simpa using h.symm⟩
  | vNull => simp [beObjectOf, isObject, looseNeqNull, typeofJ, isArrayJ] at h
  | vUndefined => simp [beObjectOf, isObject, looseNeqNull, typeofJ, isArrayJ] at h
  | vBool b => simp [beObjectOf, isObject, looseNeqNull, typeofJ, isArrayJ] at h
  | vNum n => simp [beObjectOf, isObject, looseNeqNull, typeofJ, isArrayJ] at h
  | vStr s => simp [beObjectOf, isObject, looseNeqNull, typeofJ, isArrayJ] at h
  | vArr xs => simp [beObjectOf, isObject, looseNeqNull, typeofJ, isArrayJ] at h
  | vFun => simp [beObjectOf, isObject, looseNeqNull, typeofJ, isArrayJ] at h

theorem getField_of_mem_nodup (r : List (String × JVal))
    (hnd : (r.map Prod.fst).Nodup) (kv : String × JVal) (h : kv ∈ r) :
    getField r kv.1 = kv.2 := by
  induction r with
  | nil => cases h
  | cons hd tl ih =>
    rw [List.map_cons, List.nodup_cons] at hnd
    rcases List.mem_cons.mp h with rfl | hmem
    · simp [getField, List.find?_cons]
    · have hne : ¬ hd.1 = kv.1 := by
        intro heq
        exact hnd.1 (heq ▸ List.mem_map.mpr ⟨kv, hmem, rfl⟩)
      have htl := ih hnd.2 hmem
      simp only [getField, List.find?_cons] at htl ⊢
      simpa [hne] using htl

theorem forall₂_fieldDecoded_keys {fields : List (String × JVal)}
    {fds : List (String × Decoder)} {r : List (String × JVal)}
    (h : List.Forall₂ (FieldDecoded fields) fds r) :
    fds.map Prod.fst = r.map Prod.fst := by
  induction h with
  | nil => rfl
  | cons h₁ h₂ ih => simp [h₁.1, ih]

/-- C9.  Idempotence: every decoder built from the combinators `be`,
`beObjectOf`, `beArrayOf` and `beDictOf` is a stable no-op on its own
successful output — decoding the output again succeeds with the same
value. -/
theorem combinators_idempotent (d : Decoder) (hd : FromCombinators d) :
    ∀ x y, d x = Except.ok y → d y = Except.ok y := by
  induction hd with
  | base p =>
    intro x y hxy
    obtain ⟨hp, h⟩ := (be_ok_iff p x y).mp hxy
    subst h
    exact (be_ok_iff p _ _).mpr ⟨hp, rfl⟩
  | objectOf fds hnd hsub ih =>
    intro x y hxy
    obtain ⟨fs, r, rfl, hres, rfl⟩ := beObjectOf_ok_inv fds x y hxy
    have hF : List.Forall₂ (FieldDecoded fs) fds r :=
      (decodeFields_ok_iff fds fs r).mp hres
    have hndr : (r.map Prod.fst).Nodup := forall₂_fieldDecoded_keys hF ▸ hnd
    have hF' : List.Forall₂ (FieldDecoded r) fds r := by
      rw [List.forall₂_iff_get] at hF ⊢
      obtain ⟨hlen, hget⟩ := hF
      refine ⟨hlen, fun i h₁ h₂ => ?_⟩
      obtain ⟨hk, hv⟩ := hget i h₁ h₂
      refine ⟨hk, ?_⟩
      have hgf : getField r (r.get ⟨i, h₂⟩).1 = (r.get ⟨i, h₂⟩).2 :=
        getField_of_mem_nodup r hndr _ (List.get_mem r i h₂)
      rw [hk, hgf]
      exact ih _ (List.get_mem fds i h₁) _ _ hv
    rw [beObjectOf_obj_eq, (decodeFields_ok_iff fds r r).mpr hF']
  | arrayOf d' opts hsub ih =>
    intro x y hxy
    obtain ⟨xs, res, rfl, hres, hlen, rfl⟩ := beArrayOf_ok_inv d' opts x y hxy
    have hall : ∀ v ∈ res, d' v = Except.ok v := by
      intro v hv
      obtain ⟨el, hel⟩ := decodeElems_ok_forall d' opts.invalidate xs res hres v hv
      exact ih el v hel
    simp [beArrayOf, decodeElems_ok_of_forall d' opts.invalidate res hall, hlen]
  | dictOf d' opts hsub ih =>
    intro x y hxy
    obtain ⟨fs, res, rfl, hres, hlen, rfl⟩ := beDictOf_ok_inv d' opts x y hxy
    have hall : ∀ kv ∈ res, d' kv.2 = Except.ok kv.2 := by
      intro kv hkv
      obtain ⟨el, hel⟩ :=
        decodeDictElems_ok_forall d' opts.invalidate fs res hres kv hkv
      exact ih el kv.2 hel
    simp [beDictOf, isObject, looseNeqNull, typeofJ, isArrayJ,
      decodeDictElems_ok_of_forall d' opts.invalidate res hall, hlen]

/-- Witness for C9: re-decoding the output `[3]` of an array-of-numbers
decode is a stable no-op. -/
theorem combinators_idempotent_witness :
    beArrayOf (be isNumber) defaultOptions (JVal.vArr [JVal.vNum 3]) =
      Except.ok (JVal.vArr [JVal.vNum 3]) :=
  combinators_idempotent (beArrayOf (be isNumber) defaultOptions)
    (FromCombinators.arrayOf (be isNumber) defaultOptions
      (FromCombinators.base isNumber))
    (JVal.vArr [JVal.vStr "1", JVal.vNum 3]) (JVal.vArr [JVal.vNum 3]) rfl
